import Mathlib

set_option linter.unusedSectionVars false

/-!
Shallow embedding of `src/client/src/components/DrawBoard.tsx` (the interaction
engine of the Draw-War drawing board) and proofs about its gesture state machine,
hit testing, erasing, and snapshot undo/redo history.

Numbers are modelled by an arbitrary linear ordered commutative ring `K` with a
division (the source works on JS numbers and uses only `+ - * / ** < <= >` and
`Math.sqrt`, and the single division it performs, `ERASER_SIZE / 2 = 30 / 2`, is
exact, so the integers, the rationals and the reals are all faithful
instantiations); `Math.sqrt` is passed
as an explicit function parameter `sqrt : K → K` to the operations that call it, so
every definition stays executable; theorems that depend on the meaning of `Math.sqrt`
take the characterizing hypothesis and are instantiated at `Real.sqrt`.

React state-hook semantics: inside one event handler every `setX(v)` or functional
`setX(prev => f prev)` update is applied in program order to state that no other code
touches concurrently, so each handler is embedded as a pure function
`BoardState K → BoardState K` applying its updates sequentially.
-/

namespace DrawBoard

/-- The `Shape` tagged union of the source:
`{type:"rectangle"; x; y; width; height} | {type:"circle"; x; y; radius}`. -/
inductive Shape (K : Type) where
  | rectangle (x y width height : K)
  | circle (x y radius : K)
  deriving DecidableEq

/-- The `Stroke` record of the source: `{type: "pencil" | "brush"; points}`.
The tag is kept as the raw string exactly as the source stores it. -/
structure Stroke (K : Type) where
  type : String
  points : List (K × K)
  deriving DecidableEq

/-- One undo/redo entry, the source's `HistoryState = {shapes, strokes}`. -/
structure HistoryState (K : Type) where
  shapes : List (Shape K)
  strokes : List (Stroke K)
  deriving DecidableEq

/-- The whole component state: one field per `useState` hook of `DrawBoard`.
`mode` is the raw string of the source ("rectangle" | "circle" | "pencil" |
"brush" | "erase" in well-typed runs); `history` is the undo stack (push at the
end, as JS `push`), `redoStack` likewise. -/
structure BoardState (K : Type) where
  mode : String
  previousMode : String
  shapes : List (Shape K)
  strokes : List (Stroke K)
  previewShape : Option (Shape K)
  isDrawing : Bool
  isMoving : Bool
  isResizing : Bool
  selectedIndex : Option Nat
  dragOffset : Option (K × K)
  startPos : Option (K × K)
  history : List (HistoryState K)
  redoStack : List (HistoryState K)
  deriving DecidableEq

variable {K : Type} [LinearOrderedCommRing K] [Div K]

/-- `const ERASER_SIZE = 30`. -/
def ERASER_SIZE : K := 30

/-- The initial hook values: mode "rectangle", everything else empty/false/null. -/
def initState : BoardState K :=
  { mode := "rectangle"
    previousMode := "rectangle"
    shapes := []
    strokes := []
    previewShape := none
    isDrawing := false
    isMoving := false
    isResizing := false
    selectedIndex := none
    dragOffset := none
    startPos := none
    history := []
    redoStack := [] }

/-- The document part of a state (the pair a history entry snapshots). -/
def docOf (s : BoardState K) : HistoryState K :=
  { shapes := s.shapes, strokes := s.strokes }

/-- `saveHistory`: push `{shapes, strokes}` onto `history`, clear `redoStack`. -/
def saveHistory (s : BoardState K) : BoardState K :=
  { s with history := s.history.concat (docOf s), redoStack := [] }

/-- `undo`: no-op on empty history; else pop the last entry, push the current
document onto `redoStack`, and install the popped entry as the document. -/
def undo (s : BoardState K) : BoardState K :=
  match s.history.getLast? with
  | none => s
  | some last =>
      { s with
        redoStack := s.redoStack.concat (docOf s)
        shapes := last.shapes
        strokes := last.strokes
        history := s.history.dropLast }

/-- `redo`: symmetric to `undo` using `redoStack`. -/
def redo (s : BoardState K) : BoardState K :=
  match s.redoStack.getLast? with
  | none => s
  | some last =>
      { s with
        history := s.history.concat (docOf s)
        shapes := last.shapes
        strokes := last.strokes
        redoStack := s.redoStack.dropLast }

/-- The per-shape containment test embedded from `getShapeAtPosition`'s loop body:
rectangles use the stored (possibly negative) extents literally; circles compare
`Math.sqrt(dx*dx + dy*dy) <= radius`. -/
def shapeContains (sqrt : K → K) (x y : K) : Shape K → Bool
  | Shape.rectangle rx ry w h =>
      decide (rx ≤ x) && decide (x ≤ rx + w) && decide (ry ≤ y) && decide (y ≤ ry + h)
  | Shape.circle cx cy r =>
      decide (sqrt ((x - cx) * (x - cx) + (y - cy) * (y - cy)) ≤ r)

/-- `getShapeAtPosition`: the source scans indices from `shapes.length - 1` down to
0 and returns the first hit. The recursion below prefers a hit in the tail (higher
absolute index) over the head, which is the same topmost-first priority, and
returns the same absolute index. -/
def getShapeAtPosition (sqrt : K → K) (x y : K) : List (Shape K) → Option Nat
  | [] => none
  | shp :: rest =>
      match getShapeAtPosition sqrt x y rest with
      | some i => some (i + 1)
      | none => if shapeContains sqrt x y shp then some 0 else none

/-- The shape filter of `eraseAtPosition`: keep a rectangle unless its box overlaps
the eraser square (strict AABB test), keep a circle iff the center-to-eraser
distance exceeds `radius + half`. -/
def eraseShapes (sqrt : K → K) (x y : K) (shapes : List (Shape K)) : List (Shape K) :=
  let half : K := ERASER_SIZE / 2
  shapes.filter fun s =>
    match s with
    | Shape.rectangle rx ry w h =>
        ! (decide (rx < x + half) && decide (x - half < rx + w) &&
           decide (ry < y + half) && decide (y - half < ry + h))
    | Shape.circle cx cy r =>
        decide (r + half < sqrt ((cx - x) * (cx - x) + (cy - y) * (cy - y)))

/-- The stroke filter of `eraseAtPosition`: drop a stroke iff some point of it lies
strictly inside the eraser square. -/
def eraseStrokes (x y : K) (strokes : List (Stroke K)) : List (Stroke K) :=
  let half : K := ERASER_SIZE / 2
  strokes.filter fun st =>
    ! st.points.any fun p =>
        decide (x - half < p.1) && decide (p.1 < x + half) &&
        decide (y - half < p.2) && decide (p.2 < y + half)

/-- `eraseAtPosition`: one erase pass, filtering both collections. -/
def eraseAtPosition (sqrt : K → K) (x y : K) (s : BoardState K) : BoardState K :=
  { s with shapes := eraseShapes sqrt x y s.shapes, strokes := eraseStrokes x y s.strokes }

/-- `{...s, x: nx, y: ny}`: move a shape's origin, keeping its extent. -/
def shapeWithOrigin : Shape K → K → K → Shape K
  | Shape.rectangle _ _ w h, nx, ny => Shape.rectangle nx ny w h
  | Shape.circle _ _ r, nx, ny => Shape.circle nx ny r

/-- The tail of `handleMouseDown` after the hit test failed or was skipped:
erase mode starts an erase pass, pencil/brush start a stroke, the shape modes
only record the anchor (no snapshot yet). -/
def downTail (sqrt : K → K) (x y : K) (s : BoardState K) : BoardState K :=
  if s.mode = "erase" then
    eraseAtPosition sqrt x y { saveHistory s with isDrawing := true }
  else if s.mode = "pencil" ∨ s.mode = "brush" then
    { saveHistory s with
      isDrawing := true
      strokes := s.strokes.concat { type := s.mode, points := [(x, y)] } }
  else
    { s with startPos := some (x, y), isDrawing := true }

/-- `handleMouseDown`. Button 2 is the secondary-button erase override; otherwise
a hit shape (when mode is not erase) starts a resize gesture if the pointer is in
the 10-by-10 bottom-right corner region of a rectangle, else a move gesture. -/
def handleMouseDown (sqrt : K → K) (button : Nat) (x y : K) (s : BoardState K) :
    BoardState K :=
  if button = 2 then
    let s1 := { s with previousMode := s.mode, mode := "erase" }
    eraseAtPosition sqrt x y { saveHistory s1 with isDrawing := true }
  else
    match getShapeAtPosition sqrt x y s.shapes with
    | some i =>
        if s.mode = "erase" then downTail sqrt x y s
        else
          match s.shapes[i]? with
          | some (Shape.rectangle rx ry w h) =>
              if rx + w - 10 ≤ x ∧ ry + h - 10 ≤ y then
                saveHistory { s with selectedIndex := some i, isResizing := true }
              else
                saveHistory
                  { s with
                    selectedIndex := some i
                    isMoving := true
                    dragOffset := some (x - rx, y - ry) }
          | some (Shape.circle cx cy _) =>
              saveHistory
                { s with
                  selectedIndex := some i
                  isMoving := true
                  dragOffset := some (x - cx, y - cy) }
          | none => s
    | none => downTail sqrt x y s

/-- The in-place `copy[copy.length - 1].points.push({x, y})` of the pencil/brush
move branch, with value semantics: append the point to the last stroke. (On an
empty array the source would fault; that line is unreachable, since the branch
only runs during a gesture that began by appending a fresh stroke.) -/
def appendPointToLastStroke (x y : K) : List (Stroke K) → List (Stroke K)
  | [] => []
  | [st] => [{ st with points := st.points.concat (x, y) }]
  | st :: st2 :: rest => st :: appendPointToLastStroke x y (st2 :: rest)

/-- `handleMouseMove`: the branch chain of the source, in order: guard, erase,
move, resize, freehand, then the rectangle/circle preview computed from
`startPos`. -/
def handleMouseMove (sqrt : K → K) (x y : K) (s : BoardState K) : BoardState K :=
  if s.isDrawing = false ∧ s.isMoving = false ∧ s.isResizing = false then s
  else if s.mode = "erase" then
    eraseAtPosition sqrt x y s
  else if s.isMoving = true ∧ s.selectedIndex ≠ none ∧ s.dragOffset ≠ none then
    match s.selectedIndex, s.dragOffset with
    | some i, some off =>
        { s with
          shapes := s.shapes.mapIdx fun j sh =>
            if j = i then shapeWithOrigin sh (x - off.1) (y - off.2) else sh }
    | _, _ => s
  else if s.isResizing = true ∧ s.selectedIndex ≠ none then
    match s.selectedIndex with
    | some i =>
        { s with
          shapes := s.shapes.mapIdx fun j sh =>
            if j = i then
              match sh with
              | Shape.rectangle rx ry _ _ => Shape.rectangle rx ry (x - rx) (y - ry)
              | c => c
            else sh }
    | none => s
  else if s.mode = "pencil" ∨ s.mode = "brush" then
    { s with strokes := appendPointToLastStroke x y s.strokes }
  else
    match s.startPos with
    | none => s
    | some a =>
        if s.mode = "rectangle" then
          { s with previewShape := some (Shape.rectangle a.1 a.2 (x - a.1) (y - a.2)) }
        else if s.mode = "circle" then
          { s with
            previewShape := some (Shape.circle a.1 a.2
              (sqrt ((x - a.1) ^ 2 + (y - a.2) ^ 2))) }
        else s

/-- `handleMouseUp`: commit a pending preview (snapshot first), restore the mode
when the ending event carries button 2, then clear all transient gesture state. -/
def handleMouseUp (button : Nat) (s : BoardState K) : BoardState K :=
  let s1 :=
    match s.previewShape with
    | some p =>
        let t := saveHistory s
        { t with shapes := t.shapes.concat p, previewShape := none }
    | none => s
  let s2 := if button = 2 then { s1 with mode := s1.previousMode } else s1
  { s2 with
    isDrawing := false
    isMoving := false
    isResizing := false
    selectedIndex := none
    startPos := none
    dragOffset := none }

/-- The canvas wires `onMouseLeave={handleMouseUp}`; a DOM mouse-leave event is
not a button-change event, so its `button` field is 0. -/
def handleMouseLeave (s : BoardState K) : BoardState K := handleMouseUp 0 s

/-- The `setMode` entry point. At runtime it is the raw state setter: the given
value is stored unconditionally. The restriction to the five mode strings is a
static type annotation in the source only; no runtime check exists. -/
def setMode (m : String) (s : BoardState K) : BoardState K := { s with mode := m }

/-- Run a list of pointer-move events in order. -/
def runMoves (sqrt : K → K) (ms : List (K × K)) (s : BoardState K) : BoardState K :=
  ms.foldl (fun st p => handleMouseMove sqrt p.1 p.2 st) s

/-- One complete gesture: pointer-down, the given pointer-moves, pointer-up. -/
def runGesture (sqrt : K → K) (button : Nat) (x y : K) (ms : List (K × K))
    (upButton : Nat) (s : BoardState K) : BoardState K :=
  handleMouseUp upButton (runMoves sqrt ms (handleMouseDown sqrt button x y s))

/-- A fixed stand-in for `Math.sqrt` used to run concrete gestures whose shapes
never exercise the circle branches. -/
def sqrtStub : ℤ → ℤ := fun _ => 0

/-- A state with no gesture in progress: all `handleMouseUp` resets that the
gesture machine reads have been applied. Every state reachable at a gesture
boundary satisfies this (the up/leave handler clears exactly these fields). -/
def Quiescent (s : BoardState K) : Prop :=
  s.isDrawing = false ∧ s.isMoving = false ∧ s.isResizing = false ∧
    s.previewShape = none

/-- States whose pointer-move dispatch can only take a preview-free branch:
erase mode, an active move with its data, an active resize with a selection,
or freehand mode. -/
def MoveSafe (s : BoardState K) : Prop :=
  s.mode = "erase" ∨
    (s.isMoving = true ∧ s.selectedIndex ≠ none ∧ s.dragOffset ≠ none) ∨
    (s.isResizing = true ∧ s.selectedIndex ≠ none) ∨
    s.mode = "pencil" ∨ s.mode = "brush"

/-- Mid-gesture description of a gesture that already snapshotted at its
pointer-down: one new history entry holding the pre-gesture document, a cleared
redo stack, no preview, and a preview-free move dispatch. -/
def SavedLike (s0 s : BoardState K) : Prop :=
  s.history = s0.history.concat (docOf s0) ∧ s.redoStack = [] ∧
    s.previewShape = none ∧ MoveSafe s

/-- Mid-gesture description of a shape-drafting (or inert) gesture: document and
both stacks still untouched, and a mode/flag combination under which a move can
at most recompute the preview. -/
def DraftLike (s0 s : BoardState K) : Prop :=
  s.mode ≠ "erase" ∧ s.mode ≠ "pencil" ∧ s.mode ≠ "brush" ∧
    s.isMoving = false ∧ s.isResizing = false ∧
    s.shapes = s0.shapes ∧ s.strokes = s0.strokes ∧
    s.history = s0.history ∧ s.redoStack = s0.redoStack

/-- The invariant holding from just after `handleMouseDown` to just before
`handleMouseUp` of any gesture started in a quiescent state `s0`. -/
def GestureInv (s0 s : BoardState K) : Prop :=
  SavedLike s0 s ∨ DraftLike s0 s

/-- The erase predicate written from the SPEC's words (its section 4.2), to be
compared against the implementation's filter: a rectangle is erased iff its
(possibly negative-extent) box overlaps the eraser square of half-side 15
centered at (x, y) by the standard AABB interval test; a circle iff its center
lies within distance radius + 15 of (x, y) (distance stated in squared form,
together with nonnegativity of radius + 15, to avoid the radical). -/
def specShapeErased (x y : K) : Shape K → Bool
  | Shape.rectangle rx ry w h =>
      decide (rx < x + 15 ∧ x - 15 < rx + w ∧ ry < y + 15 ∧ y - 15 < ry + h)
  | Shape.circle cx cy r =>
      decide (0 ≤ r + 15 ∧ (cx - x) ^ 2 + (cy - y) ^ 2 ≤ (r + 15) ^ 2)

/-- The SPEC's stroke clause: a stroke is erased iff one of its points lies
(strictly) within the eraser square of half-side 15 centered at (x, y). -/
def specStrokeErased (x y : K) (st : Stroke K) : Bool :=
  st.points.any fun p =>
    decide (x - 15 < p.1 ∧ p.1 < x + 15 ∧ y - 15 < p.2 ∧ p.2 < y + 15)

/-- A concrete quiescent pencil-mode board used to exercise freehand gestures. -/
def pencilBoard : BoardState ℤ := { initState with mode := "pencil" }

/-- A concrete quiescent erase-mode board with one rectangle, an empty undo
stack and a nonempty redo stack. -/
def eraseBoard : BoardState ℤ :=
  { initState with
    mode := "erase"
    shapes := [Shape.rectangle 10 10 50 30]
    redoStack := [{ shapes := [], strokes := [] }] }

/-- A concrete quiescent rectangle-mode board with one committed rectangle. -/
def rectBoard : BoardState ℤ :=
  { initState with shapes := [Shape.rectangle 0 0 50 50] }

theorem handleMouseMove_keeps (sqrt : K → K) (x y : K) (s : BoardState K) :
    (handleMouseMove sqrt x y s).mode = s.mode ∧
    (handleMouseMove sqrt x y s).previousMode = s.previousMode ∧
    (handleMouseMove sqrt x y s).isDrawing = s.isDrawing ∧
    (handleMouseMove sqrt x y s).isMoving = s.isMoving ∧
    (handleMouseMove sqrt x y s).isResizing = s.isResizing ∧
    (handleMouseMove sqrt x y s).selectedIndex = s.selectedIndex ∧
    (handleMouseMove sqrt x y s).dragOffset = s.dragOffset ∧
    (handleMouseMove sqrt x y s).startPos = s.startPos ∧
    (handleMouseMove sqrt x y s).history = s.history ∧
    (handleMouseMove sqrt x y s).redoStack = s.redoStack := by
  unfold handleMouseMove eraseAtPosition
  repeat' split
  all_goals try simp_all

theorem handleMouseMove_preview (sqrt : K → K) (x y : K) (s : BoardState K)
    (h : MoveSafe s) :
    (handleMouseMove sqrt x y s).previewShape = s.previewShape := by
  unfold MoveSafe at h
  unfold handleMouseMove eraseAtPosition
  repeat' split
  all_goals try simp_all

theorem handleMouseMove_doc (sqrt : K → K) (x y : K) (s : BoardState K)
    (h1 : s.mode ≠ "erase") (h2 : s.mode ≠ "pencil") (h3 : s.mode ≠ "brush")
    (h4 : s.isMoving = false) (h5 : s.isResizing = false) :
    (handleMouseMove sqrt x y s).shapes = s.shapes ∧
    (handleMouseMove sqrt x y s).strokes = s.strokes := by
  unfold handleMouseMove
  repeat' split
  all_goals try simp_all

theorem handleMouseMove_gestureInv (sqrt : K → K) (x y : K)
    (s0 s : BoardState K) (h : GestureInv s0 s) :
    GestureInv s0 (handleMouseMove sqrt x y s) := by
  obtain ⟨hm, hpm, hd, hmv, hrs, hsel, hoff, hsp, hh, hr⟩ :=
    handleMouseMove_keeps sqrt x y s
  rcases h with ⟨h1, h2, h3, h4⟩ | ⟨d1, d2, d3, d4, d5, d6, d7, d8, d9⟩
  · refine Or.inl ⟨by rw [hh, h1], by rw [hr, h2],
      by rw [handleMouseMove_preview sqrt x y s h4, h3], ?_⟩
    unfold MoveSafe at h4 ⊢
    rw [hm, hmv, hrs, hsel, hoff]
    exact h4
  · obtain ⟨hsh, hst⟩ := handleMouseMove_doc sqrt x y s d1 d2 d3 d4 d5
    exact Or.inr ⟨by rw [hm]; exact d1, by rw [hm]; exact d2, by rw [hm]; exact d3,
      by rw [hmv]; exact d4, by rw [hrs]; exact d5,
      by rw [hsh]; exact d6, by rw [hst]; exact d7,
      by rw [hh]; exact d8, by rw [hr]; exact d9⟩

theorem runMoves_pres {P : BoardState K → Prop} (sqrt : K → K)
    (hstep : ∀ x y s, P s → P (handleMouseMove sqrt x y s)) :
    ∀ (ms : List (K × K)) (s : BoardState K), P s → P (runMoves sqrt ms s) := by
  intro ms
  induction ms with
  | nil => intro s h; exact h
  | cons p rest ih =>
      intro s h
      exact ih (handleMouseMove sqrt p.1 p.2 s) (hstep p.1 p.2 s h)

/-- Every shape index returned by the hit scan is valid and its shape passes the
containment test. -/
theorem getShapeAtPosition_spec (sqrt : K → K) (x y : K) :
    ∀ (l : List (Shape K)) (i : Nat), getShapeAtPosition sqrt x y l = some i →
      ∃ shp, l[i]? = some shp ∧ shapeContains sqrt x y shp = true := by
  intro l
  induction l with
  | nil => intro i h; simp [getShapeAtPosition] at h
  | cons shp rest ih =>
      intro i h
      unfold getShapeAtPosition at h
      cases hrest : getShapeAtPosition sqrt x y rest with
      | some j =>
          rw [hrest] at h
          obtain ⟨shp2, hj, hc⟩ := ih j hrest
          have hi : j + 1 = i := by simpa using h
          subst hi
          exact ⟨shp2, by simpa using hj, hc⟩
      | none =>
          rw [hrest] at h
          by_cases hc : shapeContains sqrt x y shp = true
          · rw [if_pos hc] at h
            have hi : 0 = i := by simpa using h
            subst hi
            exact ⟨shp, by simp, hc⟩
          · rw [if_neg hc] at h
            simp at h

theorem downTail_gestureInv (sqrt : K → K) (x y : K) (s : BoardState K)
    (hmov : s.isMoving = false) (hres : s.isResizing = false)
    (hpv : s.previewShape = none) :
    GestureInv s (downTail sqrt x y s) := by
  unfold downTail
  by_cases he : s.mode = "erase"
  · rw [if_pos he]
    refine Or.inl ⟨?_, ?_, ?_, Or.inl ?_⟩ <;>
      simp [MoveSafe, eraseAtPosition, saveHistory, docOf, hpv, he]
  · rw [if_neg he]
    by_cases hpb : s.mode = "pencil" ∨ s.mode = "brush"
    · rw [if_pos hpb]
      refine Or.inl ⟨?_, ?_, ?_, ?_⟩
      · simp [saveHistory, docOf]
      · simp [saveHistory]
      · simpa [saveHistory] using hpv
      · rcases hpb with h | h
        · exact Or.inr (Or.inr (Or.inr (Or.inl h)))
        · exact Or.inr (Or.inr (Or.inr (Or.inr h)))
    · rw [if_neg hpb]
      push_neg at hpb
      exact Or.inr ⟨he, hpb.1, hpb.2, hmov, hres, rfl, rfl, rfl, rfl⟩

theorem handleMouseDown_gestureInv (sqrt : K → K) (b : Nat) (x y : K)
    (s : BoardState K) (hq : Quiescent s) :
    GestureInv s (handleMouseDown sqrt b x y s) := by
  obtain ⟨hdrw, hmov, hres, hpv⟩ := hq
  unfold handleMouseDown
  by_cases hb : b = 2
  · rw [if_pos hb]
    refine Or.inl ⟨?_, ?_, ?_, Or.inl ?_⟩ <;>
      simp [MoveSafe, eraseAtPosition, saveHistory, docOf, hpv]
  · rw [if_neg hb]
    cases hhit : getShapeAtPosition sqrt x y s.shapes with
    | none =>
        exact downTail_gestureInv sqrt x y s hmov hres hpv
    | some i =>
        dsimp only
        by_cases he : s.mode = "erase"
        · rw [if_pos he]
          exact downTail_gestureInv sqrt x y s hmov hres hpv
        · rw [if_neg he]
          cases hidx : s.shapes[i]? with
          | none =>
              obtain ⟨shp, hsome, _⟩ := getShapeAtPosition_spec sqrt x y s.shapes i hhit
              rw [hidx] at hsome
              exact absurd hsome (by simp)
          | some shp =>
              cases shp with
              | rectangle rx ry w h =>
                  dsimp only
                  by_cases hsq : rx + w - 10 ≤ x ∧ ry + h - 10 ≤ y
                  · rw [if_pos hsq]
                    refine Or.inl ⟨?_, ?_, ?_,
                      Or.inr (Or.inr (Or.inl ⟨?_, ?_⟩))⟩ <;>
                      simp [saveHistory, docOf, hpv]
                  · rw [if_neg hsq]
                    refine Or.inl ⟨?_, ?_, ?_,
                      Or.inr (Or.inl ⟨?_, ?_, ?_⟩)⟩ <;>
                      simp [saveHistory, docOf, hpv]
              | circle cx cy r =>
                  refine Or.inl ⟨?_, ?_, ?_,
                    Or.inr (Or.inl ⟨?_, ?_, ?_⟩)⟩ <;>
                    simp [saveHistory, docOf, hpv]

theorem handleMouseUp_none (b : Nat) (s : BoardState K)
    (h : s.previewShape = none) :
    (handleMouseUp b s).shapes = s.shapes ∧
    (handleMouseUp b s).strokes = s.strokes ∧
    (handleMouseUp b s).history = s.history ∧
    (handleMouseUp b s).redoStack = s.redoStack := by
  unfold handleMouseUp
  rw [h]
  by_cases hb2 : b = 2 <;> simp [hb2]

theorem handleMouseUp_some (b : Nat) (s : BoardState K) (p : Shape K)
    (h : s.previewShape = some p) :
    (handleMouseUp b s).shapes = s.shapes.concat p ∧
    (handleMouseUp b s).strokes = s.strokes ∧
    (handleMouseUp b s).history = s.history.concat (docOf s) ∧
    (handleMouseUp b s).redoStack = [] := by
  unfold handleMouseUp
  rw [h]
  by_cases hb2 : b = 2 <;> simp [hb2, saveHistory, docOf]

/-- Every gesture run from a quiescent state either leaves the document and both
stacks untouched, or pushes exactly one history entry - the pre-gesture
document - and leaves the redo stack empty. -/
theorem gesture_spec (sqrt : K → K) (b : Nat) (x y : K) (ms : List (K × K))
    (ub : Nat) (s : BoardState K) (hq : Quiescent s) :
    (docOf (runGesture sqrt b x y ms ub s) = docOf s ∧
      (runGesture sqrt b x y ms ub s).history = s.history ∧
      (runGesture sqrt b x y ms ub s).redoStack = s.redoStack) ∨
    ((runGesture sqrt b x y ms ub s).history = s.history.concat (docOf s) ∧
      (runGesture sqrt b x y ms ub s).redoStack = []) := by
  have hinv : GestureInv s (runMoves sqrt ms (handleMouseDown sqrt b x y s)) :=
    runMoves_pres sqrt
      (fun mx my st h => handleMouseMove_gestureInv sqrt mx my s st h) ms _
      (handleMouseDown_gestureInv sqrt b x y s hq)
  have hrg : runGesture sqrt b x y ms ub s =
      handleMouseUp ub (runMoves sqrt ms (handleMouseDown sqrt b x y s)) := rfl
  set t := runMoves sqrt ms (handleMouseDown sqrt b x y s) with ht
  rcases hinv with ⟨h1, h2, h3, _⟩ | ⟨_, _, _, _, _, d6, d7, d8, d9⟩
  · right
    obtain ⟨_, _, hh, hr⟩ := handleMouseUp_none ub t h3
    rw [hrg]
    exact ⟨by rw [hh, h1], by rw [hr, h2]⟩
  · cases hp : t.previewShape with
    | none =>
        left
        obtain ⟨hsh, hst, hh, hr⟩ := handleMouseUp_none ub t hp
        rw [hrg]
        exact ⟨by simp [docOf, hsh, hst, d6, d7], by rw [hh, d8], by rw [hr, d9]⟩
    | some p =>
        right
        obtain ⟨_, _, hh, hr⟩ := handleMouseUp_some ub t p hp
        rw [hrg]
        refine ⟨?_, hr⟩
        rw [hh, d8]
        congr 1
        simp [docOf, d6, d7]

theorem undo_concat (s : BoardState K) (H : List (HistoryState K))
    (d : HistoryState K) (h : s.history = H.concat d) :
    docOf (undo s) = d ∧
    (undo s).redoStack = s.redoStack.concat (docOf s) := by
  unfold undo
  rw [h, List.concat_eq_append, List.getLast?_concat]
  exact ⟨rfl, rfl⟩

theorem redo_concat (s : BoardState K) (R : List (HistoryState K))
    (d : HistoryState K) (h : s.redoStack = R.concat d) :
    docOf (redo s) = d := by
  unfold redo
  rw [h, List.concat_eq_append, List.getLast?_concat]
  rfl

theorem redo_nil (s : BoardState K) (h : s.redoStack = []) : redo s = s := by
  unfold redo
  rw [h]
  rfl

theorem handleMouseDown_pencil (sqrt : K → K) (b : Nat) (x y : K)
    (s : BoardState K) (hb : b ≠ 2) (hm : s.mode = "pencil" ∨ s.mode = "brush")
    (hmiss : getShapeAtPosition sqrt x y s.shapes = none) :
    handleMouseDown sqrt b x y s =
      { s with
        isDrawing := true
        strokes := s.strokes.concat { type := s.mode, points := [(x, y)] }
        history := s.history.concat (docOf s)
        redoStack := [] } := by
  have he : ¬s.mode = "erase" := by rcases hm with h | h <;> simp [h]
  unfold handleMouseDown
  rw [if_neg hb, hmiss]
  dsimp only
  unfold downTail
  rw [if_neg he, if_pos hm]
  rfl

/-- C1: after one mutating gesture run from a quiescent state, `undo` restores a
document structurally equal to the pre-gesture one, and `redo` right after that
`undo` restores the post-gesture document. -/
theorem gesture_undo_redo_inverse (sqrt : K → K) (b : Nat) (x y : K)
    (ms : List (K × K)) (ub : Nat) (s : BoardState K) (hq : Quiescent s)
    (hmut : docOf (runGesture sqrt b x y ms ub s) ≠ docOf s) :
    docOf (undo (runGesture sqrt b x y ms ub s)) = docOf s ∧
    docOf (redo (undo (runGesture sqrt b x y ms ub s))) =
      docOf (runGesture sqrt b x y ms ub s) := by
  rcases gesture_spec sqrt b x y ms ub s hq with ⟨h1, _, _⟩ | ⟨hh, _⟩
  · exact absurd h1 hmut
  · obtain ⟨hu1, hu2⟩ := undo_concat _ s.history (docOf s) hh
    exact ⟨hu1,
      redo_concat _ (runGesture sqrt b x y ms ub s).redoStack
        (docOf (runGesture sqrt b x y ms ub s)) hu2⟩

theorem gesture_undo_redo_inverse_witness :
    Quiescent (initState (K := ℤ)) ∧
    docOf (runGesture sqrtStub 0 10 10 [(60, 40)] 0 initState) ≠
      docOf (initState (K := ℤ)) ∧
    (docOf (undo (runGesture sqrtStub 0 10 10 [(60, 40)] 0 initState)) =
        docOf (initState (K := ℤ)) ∧
      docOf (redo (undo (runGesture sqrtStub 0 10 10 [(60, 40)] 0 initState))) =
        docOf (runGesture sqrtStub 0 10 10 [(60, 40)] 0 initState)) :=
  ⟨⟨rfl, rfl, rfl, rfl⟩, by decide,
    gesture_undo_redo_inverse sqrtStub 0 10 10 [(60, 40)] 0 initState
      ⟨rfl, rfl, rfl, rfl⟩ (by decide)⟩

/-- C3: a gesture that changes the undo stack leaves the redo stack empty (so a
following `redo` is a no-op), and no gesture grows both stacks. -/
theorem mutation_clears_redo (sqrt : K → K) (b : Nat) (x y : K)
    (ms : List (K × K)) (ub : Nat) (s : BoardState K) (hq : Quiescent s) :
    ((runGesture sqrt b x y ms ub s).history ≠ s.history →
      (runGesture sqrt b x y ms ub s).redoStack = [] ∧
      redo (runGesture sqrt b x y ms ub s) = runGesture sqrt b x y ms ub s) ∧
    ¬(s.history.length < (runGesture sqrt b x y ms ub s).history.length ∧
      s.redoStack.length < (runGesture sqrt b x y ms ub s).redoStack.length) := by
  rcases gesture_spec sqrt b x y ms ub s hq with ⟨_, h2, h3⟩ | ⟨_, hr⟩
  · refine ⟨fun hne => absurd h2 hne, ?_⟩
    rw [h3]
    rintro ⟨_, hlt⟩
    exact lt_irrefl _ hlt
  · refine ⟨fun _ => ⟨hr, redo_nil _ hr⟩, ?_⟩
    rw [hr]
    rintro ⟨_, hlt⟩
    simp at hlt

theorem mutation_clears_redo_witness :
    Quiescent eraseBoard ∧
    (((runGesture sqrtStub 0 20 20 [] 0 eraseBoard).history ≠ eraseBoard.history →
        (runGesture sqrtStub 0 20 20 [] 0 eraseBoard).redoStack = [] ∧
        redo (runGesture sqrtStub 0 20 20 [] 0 eraseBoard) =
          runGesture sqrtStub 0 20 20 [] 0 eraseBoard) ∧
      ¬(eraseBoard.history.length <
          (runGesture sqrtStub 0 20 20 [] 0 eraseBoard).history.length ∧
        eraseBoard.redoStack.length <
          (runGesture sqrtStub 0 20 20 [] 0 eraseBoard).redoStack.length)) :=
  ⟨⟨rfl, rfl, rfl, rfl⟩,
    mutation_clears_redo sqrtStub 0 20 20 [] 0 eraseBoard ⟨rfl, rfl, rfl, rfl⟩⟩

/-- C2: a freehand stroke gesture (pointer-down in pencil or brush mode on empty
canvas space, any number of pointer-moves, pointer-up) pushes exactly one entry
onto the undo stack - already after the down - and no intermediate move adds
another. -/
theorem freehand_single_snapshot (sqrt : K → K) (b : Nat) (x y : K)
    (ms : List (K × K)) (ub : Nat) (s : BoardState K) (hq : Quiescent s)
    (hm : s.mode = "pencil" ∨ s.mode = "brush") (hb : b ≠ 2)
    (hmiss : getShapeAtPosition sqrt x y s.shapes = none) :
    (∀ k : Nat,
      (runMoves sqrt (ms.take k) (handleMouseDown sqrt b x y s)).history =
        s.history.concat (docOf s)) ∧
    (runGesture sqrt b x y ms ub s).history = s.history.concat (docOf s) := by
  obtain ⟨_, _, _, hpv⟩ := hq
  have hdown := handleMouseDown_pencil sqrt b x y s hb hm hmiss
  have hstep : ∀ mx my st,
      (st.history = s.history.concat (docOf s) ∧ st.previewShape = none ∧
        MoveSafe st) →
      ((handleMouseMove sqrt mx my st).history = s.history.concat (docOf s) ∧
        (handleMouseMove sqrt mx my st).previewShape = none ∧
        MoveSafe (handleMouseMove sqrt mx my st)) := by
    intro mx my st hst
    obtain ⟨m1, m2, m3⟩ := hst
    obtain ⟨km, _, _, kmv, krs, ksel, koff, _, kh, _⟩ :=
      handleMouseMove_keeps sqrt mx my st
    refine ⟨by rw [kh]; exact m1,
      by rw [handleMouseMove_preview sqrt mx my st m3]; exact m2, ?_⟩
    unfold MoveSafe at m3 ⊢
    rw [km, kmv, krs, ksel, koff]
    exact m3
  have hP0 : (handleMouseDown sqrt b x y s).history = s.history.concat (docOf s) ∧
      (handleMouseDown sqrt b x y s).previewShape = none ∧
      MoveSafe (handleMouseDown sqrt b x y s) := by
    rw [hdown]
    refine ⟨rfl, hpv, ?_⟩
    rcases hm with h | h
    · exact Or.inr (Or.inr (Or.inr (Or.inl h)))
    · exact Or.inr (Or.inr (Or.inr (Or.inr h)))
  refine ⟨fun k => (runMoves_pres sqrt hstep (ms.take k) _ hP0).1, ?_⟩
  obtain ⟨f1, f2, _⟩ := runMoves_pres sqrt hstep ms _ hP0
  obtain ⟨_, _, hh, _⟩ :=
    handleMouseUp_none ub (runMoves sqrt ms (handleMouseDown sqrt b x y s)) f2
  show (handleMouseUp ub (runMoves sqrt ms (handleMouseDown sqrt b x y s))).history = _
  rw [hh]
  exact f1

theorem freehand_single_snapshot_witness :
    Quiescent pencilBoard ∧
    (pencilBoard.mode = "pencil" ∨ pencilBoard.mode = "brush") ∧
    (0 : Nat) ≠ 2 ∧
    getShapeAtPosition sqrtStub 5 5 pencilBoard.shapes = none ∧
    ((∀ k : Nat,
        (runMoves sqrtStub (([(5, 15), (15, 15)] : List (ℤ × ℤ)).take k)
          (handleMouseDown sqrtStub 0 5 5 pencilBoard)).history =
          pencilBoard.history.concat (docOf pencilBoard)) ∧
      (runGesture sqrtStub 0 5 5 [(5, 15), (15, 15)] 0 pencilBoard).history =
        pencilBoard.history.concat (docOf pencilBoard)) :=
  ⟨⟨rfl, rfl, rfl, rfl⟩, Or.inl rfl, by decide, by decide,
    freehand_single_snapshot sqrtStub 0 5 5 [(5, 15), (15, 15)] 0 pencilBoard
      ⟨rfl, rfl, rfl, rfl⟩ (Or.inl rfl) (by decide) (by decide)⟩

/-- C4 (Scenario A): from the empty initial board in rectangle mode, down at
(10,10), move to (60,40), up commits exactly the rectangle
{x:10, y:10, width:50, height:30} and leaves one undo entry - the empty
pre-gesture document, snapshotted at commit time. -/
theorem scenarioA_rectangle_commit :
    (runGesture sqrtStub 0 10 10 [(60, 40)] 0 initState).shapes =
      [Shape.rectangle 10 10 50 30] ∧
    (runGesture sqrtStub 0 10 10 [(60, 40)] 0 initState).history =
      [{ shapes := [], strokes := [] }] := by
  decide

/-- C10: in rectangle or circle mode, a primary-button click on empty canvas
space with no intervening move leaves the document, the undo stack and the redo
stack unchanged. -/
theorem empty_shape_click_frame (sqrt : K → K) (b ub : Nat) (x y : K)
    (s : BoardState K) (hq : Quiescent s)
    (hmode : s.mode = "rectangle" ∨ s.mode = "circle") (hb : b ≠ 2)
    (hmiss : getShapeAtPosition sqrt x y s.shapes = none) :
    (runGesture sqrt b x y [] ub s).shapes = s.shapes ∧
    (runGesture sqrt b x y [] ub s).strokes = s.strokes ∧
    (runGesture sqrt b x y [] ub s).history = s.history ∧
    (runGesture sqrt b x y [] ub s).redoStack = s.redoStack := by
  obtain ⟨_, _, _, hpv⟩ := hq
  have hne1 : ¬s.mode = "erase" := by rcases hmode with h | h <;> simp [h]
  have hne2 : ¬(s.mode = "pencil" ∨ s.mode = "brush") := by
    rcases hmode with h | h <;> simp [h]
  have hdown : handleMouseDown sqrt b x y s =
      { s with startPos := some (x, y), isDrawing := true } := by
    unfold handleMouseDown
    rw [if_neg hb, hmiss]
    dsimp only
    unfold downTail
    rw [if_neg hne1, if_neg hne2]
  have hrg : runGesture sqrt b x y [] ub s =
      handleMouseUp ub (handleMouseDown sqrt b x y s) := rfl
  rw [hrg, hdown]
  exact handleMouseUp_none ub _ hpv

theorem empty_shape_click_frame_witness :
    Quiescent (initState (K := ℤ)) ∧
    ((initState (K := ℤ)).mode = "rectangle" ∨
      (initState (K := ℤ)).mode = "circle") ∧
    (0 : Nat) ≠ 2 ∧
    getShapeAtPosition sqrtStub 7 9 (initState (K := ℤ)).shapes = none ∧
    ((runGesture sqrtStub 0 7 9 [] 0 initState).shapes =
        (initState (K := ℤ)).shapes ∧
      (runGesture sqrtStub 0 7 9 [] 0 initState).strokes =
        (initState (K := ℤ)).strokes ∧
      (runGesture sqrtStub 0 7 9 [] 0 initState).history =
        (initState (K := ℤ)).history ∧
      (runGesture sqrtStub 0 7 9 [] 0 initState).redoStack =
        (initState (K := ℤ)).redoStack) :=
  ⟨⟨rfl, rfl, rfl, rfl⟩, Or.inl rfl, by decide, by decide,
    empty_shape_click_frame sqrtStub 0 0 7 9 initState ⟨rfl, rfl, rfl, rfl⟩
      (Or.inl rfl) (by decide) (by decide)⟩

/-- C6 is refuted at a concrete input: after a secondary-button down (which
remembers mode "rectangle" and forces "erase"), ending the gesture through the
pointer-leave wiring - a DOM leave event carries button 0, which fails the
`e.button === 2` restore check - leaves the mode at "erase" instead of
restoring the remembered "rectangle". -/
theorem leave_does_not_restore_mode :
    (handleMouseDown sqrtStub 2 5 5 initState).previousMode = "rectangle" ∧
    (handleMouseLeave (handleMouseDown sqrtStub 2 5 5 initState)).mode = "erase" ∧
    (handleMouseLeave (handleMouseDown sqrtStub 2 5 5 initState)).mode ≠
      (handleMouseDown sqrtStub 2 5 5 initState).previousMode := by
  decide

/-- C6 amended: a secondary-button down forces mode "erase" and remembers the
prior mode; pointer-moves keep the forced mode for the whole gesture; the
remembered mode is restored exactly when the gesture-ending event itself
carries the secondary button (a pointer-up with button 2) - an ending event
with any other button value, such as a pointer-leave (button 0), leaves the
mode unchanged. -/
theorem override_mode_restore_on_button2 (sqrt : K → K) (s : BoardState K)
    (x y mx my : K) (b : Nat) (hb : b ≠ 2) :
    (handleMouseDown sqrt 2 x y s).mode = "erase" ∧
    (handleMouseDown sqrt 2 x y s).previousMode = s.mode ∧
    (handleMouseMove sqrt mx my s).mode = s.mode ∧
    (handleMouseUp 2 s).mode = s.previousMode ∧
    (handleMouseUp b s).mode = s.mode := by
  refine ⟨?_, ?_, (handleMouseMove_keeps sqrt mx my s).1, ?_, ?_⟩
  · unfold handleMouseDown
    rw [if_pos rfl]
    rfl
  · unfold handleMouseDown
    rw [if_pos rfl]
    rfl
  · unfold handleMouseUp
    cases hp : s.previewShape <;> simp [hp, saveHistory]
  · unfold handleMouseUp
    cases hp : s.previewShape <;> simp [hp, saveHistory, hb]

theorem override_mode_restore_on_button2_witness :
    (0 : Nat) ≠ 2 ∧
    ((handleMouseDown sqrtStub 2 3 4 rectBoard).mode = "erase" ∧
      (handleMouseDown sqrtStub 2 3 4 rectBoard).previousMode = rectBoard.mode ∧
      (handleMouseMove sqrtStub 6 6 rectBoard).mode = rectBoard.mode ∧
      (handleMouseUp 2 rectBoard).mode = rectBoard.previousMode ∧
      (handleMouseUp 0 rectBoard).mode = rectBoard.mode) :=
  ⟨by decide,
    override_mode_restore_on_button2 sqrtStub rectBoard 3 4 6 6 0 (by decide)⟩

/-- C7: when a primary-button down (mode not erase) hits a topmost shape that is
a rectangle, it starts a resize gesture on it exactly when the point lies in the
10-by-10 square whose bottom-right corner is the rectangle's corner
(x0+width, y0+height) - otherwise it starts a move; a hit circle always starts
a move, never a resize. -/
theorem resize_handle_iff (sqrt : K → K) (b : Nat) (x y : K) (s : BoardState K)
    (i : Nat) (hq : Quiescent s) (hb : b ≠ 2) (he : ¬s.mode = "erase")
    (hhit : getShapeAtPosition sqrt x y s.shapes = some i) :
    (∀ rx ry w h, s.shapes[i]? = some (Shape.rectangle rx ry w h) →
      (((handleMouseDown sqrt b x y s).isResizing = true ∧
        (handleMouseDown sqrt b x y s).isMoving = false ∧
        (handleMouseDown sqrt b x y s).selectedIndex = some i) ↔
        (rx + w - 10 ≤ x ∧ x ≤ rx + w ∧ ry + h - 10 ≤ y ∧ y ≤ ry + h))) ∧
    (∀ cx cy r, s.shapes[i]? = some (Shape.circle cx cy r) →
      (handleMouseDown sqrt b x y s).isResizing = false ∧
      (handleMouseDown sqrt b x y s).isMoving = true ∧
      (handleMouseDown sqrt b x y s).selectedIndex = some i) := by
  obtain ⟨_, hmov, hres, _⟩ := hq
  constructor
  · intro rx ry w h hidx
    obtain ⟨shp, hsome, hc⟩ := getShapeAtPosition_spec sqrt x y s.shapes i hhit
    rw [hidx] at hsome
    obtain rfl : shp = Shape.rectangle rx ry w h := (Option.some.inj hsome).symm
    simp only [shapeContains, Bool.and_eq_true, decide_eq_true_eq] at hc
    obtain ⟨⟨⟨_, c2⟩, _⟩, c4⟩ := hc
    have hcalc : handleMouseDown sqrt b x y s =
        if rx + w - 10 ≤ x ∧ ry + h - 10 ≤ y then
          saveHistory { s with selectedIndex := some i, isResizing := true }
        else
          saveHistory
            { s with
              selectedIndex := some i
              isMoving := true
              dragOffset := some (x - rx, y - ry) } := by
      unfold handleMouseDown
      rw [if_neg hb, hhit]
      dsimp only
      rw [if_neg he, hidx]
    by_cases hsq : rx + w - 10 ≤ x ∧ ry + h - 10 ≤ y
    · rw [hcalc, if_pos hsq]
      exact ⟨fun _ => ⟨hsq.1, c2, hsq.2, c4⟩, fun _ => ⟨rfl, hmov, rfl⟩⟩
    · rw [hcalc, if_neg hsq]
      constructor
      · rintro ⟨hrt, -, -⟩
        rw [show (saveHistory
            { s with
              selectedIndex := some i
              isMoving := true
              dragOffset := some (x - rx, y - ry) }).isResizing = s.isResizing
          from rfl, hres] at hrt
        cases hrt
      · rintro ⟨q1, -, q3, -⟩
        exact absurd ⟨q1, q3⟩ hsq
  · intro cx cy r hidx
    have hcalc : handleMouseDown sqrt b x y s =
        saveHistory
          { s with
            selectedIndex := some i
            isMoving := true
            dragOffset := some (x - cx, y - cy) } := by
      unfold handleMouseDown
      rw [if_neg hb, hhit]
      dsimp only
      rw [if_neg he, hidx]
    rw [hcalc]
    exact ⟨hres, rfl, rfl⟩

theorem resize_handle_iff_witness :
    Quiescent rectBoard ∧ (0 : Nat) ≠ 2 ∧ ¬rectBoard.mode = "erase" ∧
    getShapeAtPosition sqrtStub 45 45 rectBoard.shapes = some 0 ∧
    ((∀ rx ry w h : ℤ,
        rectBoard.shapes[0]? = some (Shape.rectangle rx ry w h) →
        (((handleMouseDown sqrtStub 0 45 45 rectBoard).isResizing = true ∧
          (handleMouseDown sqrtStub 0 45 45 rectBoard).isMoving = false ∧
          (handleMouseDown sqrtStub 0 45 45 rectBoard).selectedIndex = some 0) ↔
          (rx + w - 10 ≤ 45 ∧ 45 ≤ rx + w ∧ ry + h - 10 ≤ 45 ∧ 45 ≤ ry + h))) ∧
      (∀ cx cy r : ℤ, rectBoard.shapes[0]? = some (Shape.circle cx cy r) →
        (handleMouseDown sqrtStub 0 45 45 rectBoard).isResizing = false ∧
        (handleMouseDown sqrtStub 0 45 45 rectBoard).isMoving = true ∧
        (handleMouseDown sqrtStub 0 45 45 rectBoard).selectedIndex = some 0)) :=
  ⟨⟨rfl, rfl, rfl, rfl⟩, by decide, by decide, by decide,
    resize_handle_iff sqrtStub 0 45 45 rectBoard 0 ⟨rfl, rfl, rfl, rfl⟩
      (by decide) (by decide) (by decide)⟩

/-- C8: a rectangle stored with negative width or negative height contains no
point at all (the stored extents are used literally, with no normalization), so
the hit scan never returns its index. -/
theorem negative_extent_never_hit (sqrt : K → K) (x y : K)
    (l : List (Shape K)) (i : Nat) (rx ry w h : K)
    (hidx : l[i]? = some (Shape.rectangle rx ry w h)) (hneg : w < 0 ∨ h < 0) :
    shapeContains sqrt x y (Shape.rectangle rx ry w h) = false ∧
    getShapeAtPosition sqrt x y l ≠ some i := by
  have hfalse : shapeContains sqrt x y (Shape.rectangle rx ry w h) = false := by
    refine Bool.eq_false_iff.mpr fun hc => ?_
    simp only [shapeContains, Bool.and_eq_true, decide_eq_true_eq] at hc
    obtain ⟨⟨⟨c1, c2⟩, c3⟩, c4⟩ := hc
    rcases hneg with hw | hh2 <;> linarith
  refine ⟨hfalse, fun hcon => ?_⟩
  obtain ⟨shp, hsome, hc⟩ := getShapeAtPosition_spec sqrt x y l i hcon
  rw [hidx] at hsome
  obtain rfl : shp = Shape.rectangle rx ry w h := (Option.some.inj hsome).symm
  rw [hfalse] at hc
  cases hc

theorem negative_extent_never_hit_witness :
    ([Shape.rectangle 0 0 (-5) 10] : List (Shape ℤ))[0]? =
      some (Shape.rectangle 0 0 (-5) 10) ∧
    ((-5 : ℤ) < 0 ∨ (10 : ℤ) < 0) ∧
    (shapeContains sqrtStub 1 1 (Shape.rectangle 0 0 (-5) 10) = false ∧
      getShapeAtPosition sqrtStub 1 1 [Shape.rectangle 0 0 (-5) 10] ≠ some 0) :=
  ⟨by decide, Or.inl (by decide),
    negative_extent_never_hit sqrtStub 1 1 [Shape.rectangle 0 0 (-5) 10] 0
      0 0 (-5) 10 (by decide) (Or.inl (by decide))⟩

/-- C9 is refuted at a concrete input: the runtime `setMode` entry point is the
raw state setter, so a value outside the five mode strings is not ignored - the
mode field changes to it (the restriction is a static type annotation only). -/
theorem setMode_invalid_changes_mode :
    (setMode "triangle" (initState (K := ℤ))).mode ≠
      (initState (K := ℤ)).mode := by
  decide

/-- C9 amended: `setMode` stores the given value in the mode field
unconditionally, with no runtime validation (invalid values are excluded only
by the static type system), and changes no other state. -/
theorem setMode_sets_mode_only (m : String) (s : BoardState K) :
    (setMode m s).mode = m ∧
    (setMode m s).previousMode = s.previousMode ∧
    (setMode m s).shapes = s.shapes ∧
    (setMode m s).strokes = s.strokes ∧
    (setMode m s).previewShape = s.previewShape ∧
    (setMode m s).isDrawing = s.isDrawing ∧
    (setMode m s).isMoving = s.isMoving ∧
    (setMode m s).isResizing = s.isResizing ∧
    (setMode m s).selectedIndex = s.selectedIndex ∧
    (setMode m s).dragOffset = s.dragOffset ∧
    (setMode m s).startPos = s.startPos ∧
    (setMode m s).history = s.history ∧
    (setMode m s).redoStack = s.redoStack :=
  ⟨rfl, rfl, rfl, rfl, rfl, rfl, rfl, rfl, rfl, rfl, rfl, rfl, rfl⟩

theorem decide_and4 (p q r s : Prop)
    [Decidable p] [Decidable q] [Decidable r] [Decidable s] :
    (decide p && decide q && decide r && decide s) = decide (p ∧ q ∧ r ∧ s) := by
  by_cases p <;> by_cases q <;> by_cases r <;> by_cases s <;> simp [*]

/-- C5: one erase pass removes exactly the shapes and strokes selected by the
spec's predicates - rectangles by strict AABB overlap with the eraser square,
circles by center distance at most radius + 15, strokes by having a point in
the square - and keeps everything else in the original order: both filters
agree pointwise with the spec predicates, for any function satisfying the
square-root specification. -/
theorem erase_matches_spec {F : Type} [LinearOrderedField F] (sqrt : F → F)
    (hsqrt : ∀ a : F, 0 ≤ a → 0 ≤ sqrt a ∧ sqrt a ^ 2 = a) (x y : F)
    (shapes : List (Shape F)) (strokes : List (Stroke F)) :
    eraseShapes sqrt x y shapes =
      shapes.filter (fun s => ! specShapeErased x y s) ∧
    eraseStrokes x y strokes =
      strokes.filter (fun st => ! specStrokeErased x y st) := by
  have hhalf : (ERASER_SIZE : F) / 2 = 15 := by norm_num [ERASER_SIZE]
  constructor
  · unfold eraseShapes
    simp only [hhalf]
    apply List.filter_congr
    intro sh _
    cases sh with
    | rectangle rx ry w h =>
        simp only [specShapeErased]
        rw [decide_and4]
    | circle cx cy r =>
        simp only [specShapeErased]
        rw [← decide_not]
        apply decide_eq_decide.mpr
        have hds : (0 : F) ≤ (cx - x) * (cx - x) + (cy - y) * (cy - y) := by
          have h1 := mul_self_nonneg (cx - x)
          have h2 := mul_self_nonneg (cy - y)
          linarith
        obtain ⟨hge, hsq⟩ := hsqrt _ hds
        have hpow : (cx - x) ^ 2 + (cy - y) ^ 2 =
            (cx - x) * (cx - x) + (cy - y) * (cy - y) := by ring
        constructor
        · rintro hlt ⟨h0, hle⟩
          rw [hpow] at hle
          have hlt2 : (r + 15) ^ 2 <
              sqrt ((cx - x) * (cx - x) + (cy - y) * (cy - y)) ^ 2 :=
            pow_lt_pow_left₀ hlt h0 (by decide)
          rw [hsq] at hlt2
          linarith
        · intro hnot
          by_contra hle2
          push_neg at hle2
          refine hnot ⟨le_trans hge hle2, ?_⟩
          have h2 : sqrt ((cx - x) * (cx - x) + (cy - y) * (cy - y)) ^ 2 ≤
              (r + 15) ^ 2 := pow_le_pow_left₀ hge hle2 2
          rw [hsq] at h2
          rw [hpow]
          exact h2
  · unfold eraseStrokes
    simp only [hhalf]
    apply List.filter_congr
    intro st _
    simp only [specStrokeErased]
    have hfun : (fun p : F × F =>
        decide (x - 15 < p.1) && decide (p.1 < x + 15) &&
        decide (y - 15 < p.2) && decide (p.2 < y + 15)) =
        (fun p : F × F =>
          decide (x - 15 < p.1 ∧ p.1 < x + 15 ∧ y - 15 < p.2 ∧ p.2 < y + 15)) :=
      funext fun p => decide_and4 _ _ _ _
    rw [hfun]

theorem erase_matches_spec_witness :
    (∀ a : ℝ, 0 ≤ a → 0 ≤ Real.sqrt a ∧ Real.sqrt a ^ 2 = a) ∧
    (eraseShapes Real.sqrt 20 20
        [Shape.rectangle 10 10 50 30, Shape.circle 300 300 5] =
      List.filter (fun s => ! specShapeErased 20 20 s)
        [Shape.rectangle 10 10 50 30, Shape.circle 300 300 5] ∧
     eraseStrokes 20 20 [({ type := "pencil", points := [(100, 100)] } : Stroke ℝ)] =
      List.filter (fun st => ! specStrokeErased 20 20 st)
        [({ type := "pencil", points := [(100, 100)] } : Stroke ℝ)]) :=
  ⟨fun a ha => ⟨Real.sqrt_nonneg a, Real.sq_sqrt ha⟩,
    erase_matches_spec Real.sqrt
      (fun a ha => ⟨Real.sqrt_nonneg a, Real.sq_sqrt ha⟩) 20 20 _ _⟩

end DrawBoard
